/-
  Verification of the rviz_satellite tile loader (src/tileloader.cpp)
  against its natural-language specification.

  The C++ code is shallowly embedded below:
  * Qt strings are Lean `String`s (logically a `List Char`);
  * `QUrl` values are strings, the empty string standing for an empty `QUrl`;
  * `QImage` values are `Option Nat` (`none` standing for a null image);
  * `QNetworkReply*` handles are natural-number ids, fresh ids being drawn
    from a monotone counter (modelling pointer freshness);
  * doubles appearing only in validated comparisons are `Rat`; the
    transcendental parts (`M_PI`, `log`, `tan`, `cos`) are parameters of the
    corresponding functions;
  * the filesystem is a function from path strings to `Option Image`
    (`none`: the file does not exist);
  * `throw std::invalid_argument` is `Except.error`.
-/
import Mathlib

namespace RvizSatellite

/-! ## Decimal rendering (std::to_string / QString::number) -/

/-- Fuelled decimal rendering; `fuel` strictly exceeding `n` is always
enough since `n / 10 < n` for `n ≥ 10`. -/
def natReprAux : ℕ → ℕ → List Char
  | 0, _ => []
  | fuel + 1, n =>
    if n < 10 then [Char.ofNat (48 + n)]
    else natReprAux fuel (n / 10) ++ [Char.ofNat (48 + n % 10)]

/-- Decimal digits of a natural number, most significant first
(the rendering used by `std::to_string` and `QString::number`). -/
def natRepr (n : ℕ) : List Char :=
  natReprAux (n + 1) n

/-- Decimal rendering of an `int`, with a leading minus sign when negative. -/
def intRepr (i : ℤ) : List Char :=
  if i < 0 then '-' :: natRepr i.natAbs else natRepr i.toNat

/-- Numeric value of a digit list (used to invert `natRepr`). -/
def decimalVal (l : List Char) : ℕ :=
  l.foldl (fun a c => a * 10 + (c.toNat - 48)) 0

/-! ## Case-insensitive placeholder substitution (uriForTile)

The C++ helper `replaceRegex` loops `boost::regex_search` over the pattern
`\{x\}` (icase) and patches the string in place.  Two models are given:

* `replaceToken`: the intended semantics — repeatedly replace the leftmost
  occurrence of the three-character token and continue scanning after the
  replacement.  This is what the source's loop would compute if
  `what.position()` were an absolute offset and the iterators were refreshed
  after each mutation.

* `replaceLoopRel` (further below): a faithful index-level model of the
  loop as written, exhibiting the offset defect for repeated tokens. -/

/-- Replace every case-insensitive occurrence of the token
`'\x7b' :: tok :: '\x7d' :: _` ( i.e. an opening brace, the token letter,
a closing brace ) by `repl`, scanning left to right and continuing after
each replacement. -/
def replaceToken (tok : Char) (repl : List Char) : List Char → List Char
  | [] => []
  | [a] => [a]
  | [a, b] => [a, b]
  | a :: b :: c :: rest2 =>
    if a = '{' ∧ b.toLower = tok ∧ c = '}' then
      repl ++ replaceToken tok repl rest2
    else
      a :: replaceToken tok repl (b :: c :: rest2)

/-- Case-insensitive prefix test, the match test used by the `icase`
regular expressions of `uriForTile`. -/
def ciStarts : List Char → List Char → Bool
  | [], _ => true
  | _ :: _, [] => false
  | a :: t, b :: l => (a.toLower == b.toLower) && ciStarts t l

/-- Index of the leftmost case-insensitive occurrence of `tok` in `l`
(what `boost::regex_search` reports for a literal token pattern). -/
def findSub (tok : List Char) : List Char → Option ℕ
  | [] => if tok = [] then some 0 else none
  | a :: l => if ciStarts tok (a :: l) then some 0 else (findSub tok l).map (· + 1)

/-- `str.replace(p, len, repl)` at an index: splice `repl` over
`str[p .. p+len)`. -/
def spliceAt (str repl : List Char) (p len : ℕ) : List Char :=
  str.take p ++ repl ++ str.drop (p + len)

/-- Faithful index-level model of the source's `replaceRegex` loop in the
regime where the replacement has the same length as the match (so the string
never changes length and the saved iterators keep denoting the same
offsets).  The loop searches from offset `start`, gets the match position
`p` RELATIVE to `start`, but patches the string at ABSOLUTE offset `p`
(`str.replace(what.position(), ...)`), then resumes searching from
`start + p + tok.length` (`start = what[0].second`).  `fuel` only bounds
the iteration count; `replaceLoopRel` supplies enough for the loop to run
to completion. -/
def replaceLoopRelAux (tok repl : List Char) : ℕ → List Char → ℕ → List Char
  | 0, str, _ => str
  | fuel + 1, str, start =>
    match findSub tok (str.drop start) with
    | none => str
    | some p =>
      replaceLoopRelAux tok repl fuel (spliceAt str repl p tok.length)
        (start + p + tok.length)

/-- The `replaceRegex` loop of the source (equal-length regime): see
`replaceLoopRelAux`. -/
def replaceLoopRel (tok repl str : List Char) : List Char :=
  replaceLoopRelAux tok repl (str.length + 1) str 0

/-! ## QDir::cleanPath and the tile cache paths -/

/-- Split a character list on a separator, keeping empty fields
(`QString::split` with `KeepEmptyParts`, the default). -/
def splitSep (sep : Char) : List Char → List (List Char)
  | [] => [[]]
  | a :: r =>
    if a = sep then [] :: splitSep sep r
    else
      match splitSep sep r with
      | h :: t => (a :: h) :: t
      | [] => [[a]]

/-- One step of `QDir::cleanPath` component normalization: empty and `"."`
components disappear, `".."` pops the previous component when there is one
to pop (and is kept when the path so far is empty or all `".."`),
other components are appended. -/
def cleanSeg (acc : List (List Char)) (c : List Char) : List (List Char) :=
  if c = [] ∨ c = ['.'] then acc
  else if c = ['.', '.'] then
    match acc.getLast? with
    | none => [c]
    | some last => if last = ['.', '.'] then acc ++ [c] else acc.dropLast
  else acc ++ [c]

/-- Join path components with `'/'`, restoring a leading `'/'` for an
absolute path. -/
def joinComps (abs : Bool) (comps : List (List Char)) : List Char :=
  (if abs then ['/'] else []) ++ (comps.intersperse ['/']).flatten

/-- Normalized components of a path (the component part of
`QDir::cleanPath`). -/
def cleanComps (l : List Char) : List (List Char) :=
  (splitSep '/' l).foldl cleanSeg []

/-- Whether a path is absolute (starts with the separator). -/
def isAbs (l : List Char) : Bool :=
  match l with
  | a :: _ => decide (a = '/')
  | [] => false

/-- Model of `QDir::cleanPath` (with `QDir::separator() = '/'`): split on the
separator, drop empty and `"."` components, resolve `".."`, and join. -/
def cleanPathL (l : List Char) : List Char :=
  joinComps (isAbs l) (cleanComps l)

/-- The cleaned cache-directory prefix under which every tile file is
placed: `QDir::cleanPath` restricted to the directory part. -/
def cleanDir (dir : String) : List Char :=
  joinComps (isAbs dir.data) (cleanComps dir.data)

/-! ## TileLoader configuration and state -/

/-- A decoded `QImage`: `none` is a null image (`QImage::isNull`). -/
abbrev Image := Option ℕ

/-- The `MapTile` record of the source: grid coordinates, zoom, an optional
decoded image and an optional pending `QNetworkReply*` handle. -/
structure MapTile where
  x : ℤ
  y : ℤ
  z : ℕ
  image : Image
  reply : Option ℕ
  deriving DecidableEq, Repr

/-- `MapTile(x, y, z, image)`: the cache-hit constructor (no request). -/
def MapTile.mkCache (x y : ℤ) (z : ℕ) (img : Image) : MapTile :=
  ⟨x, y, z, img, none⟩

/-- `MapTile(x, y, z, reply)`: the pending-fetch constructor (null image). -/
def MapTile.mkFetch (x y : ℤ) (z : ℕ) (rep : ℕ) : MapTile :=
  ⟨x, y, z, none, some rep⟩

/-- `MapTile::hasImage`: the held image is not null. -/
def MapTile.hasImage (t : MapTile) : Bool := t.image.isSome

/-- Modelled from the spec: `MapTile::setImage` (declared in the missing
header `tileloader.h`) stores the decoded image; per the spec's Tile Record
invariant, once an image is set the pending-fetch handle is cleared. -/
def MapTile.setImage (t : MapTile) (img : Image) : MapTile :=
  { t with image := img, reply := none }

/-- The construction parameters of `TileLoader` that `start` and the request
callbacks read (the immutable `TileSource` of the spec, plus the center tile
computed at construction time). -/
structure TileCfg where
  objectUri : String
  zoom : ℕ
  blocks : ℕ
  centerTileX : ℤ
  centerTileY : ℤ
  offlineMode : Bool
  cachePath : String
  deriving DecidableEq, Repr

/-- The mutable state of a `TileLoader`: the current batch of tiles, the
redirect bookkeeping URL `_urlRedirectedTo`, and the fresh-handle counter
(abstracting `QNetworkReply*` pointer freshness). -/
structure LoaderState where
  tiles : List MapTile
  urlRedirectedTo : String
  nextId : ℕ
  deriving DecidableEq, Repr

/-- The signals a `TileLoader` can emit. -/
inductive Event where
  | initiatedRequest (url : String)
  | receivedImage (url : String)
  | warnOcurred (msg : String)
  | errorOcurred (msg : String)
  | finishedLoading
  deriving DecidableEq, Repr

/-- A completed network reply as seen by `finishedRequest`: the id of the
handle, the request URL, the redirection target attribute (`""` when
absent), the transport error flag, and the decodable payload
(`none`: `QImageReader::canRead` is false). -/
structure Reply where
  id : ℕ
  url : String
  redirect : String
  error : Bool
  decoded : Option Image
  deriving DecidableEq, Repr

namespace TileLoader

/-! ## Coordinate mapper -/

/-- The invalid-argument conditions thrown by `latLonToTileCoords`. -/
inductive CoordErr where
  | zoomTooHigh
  | latInvalid
  | lonInvalid
  deriving DecidableEq, Repr

/-- `TileLoader::latLonToTileCoords`.  `piQ` is the double constant `M_PI`
and `logTanSec r` the double computation `log(tan(r) + 1/cos(r))`, both
abstracted as parameters; the range validation and the rational part of the
formulas are exact. -/
def latLonToTileCoords (piQ : ℚ) (logTanSec : ℚ → ℚ) (lat lon : ℚ)
    (zoom : ℕ) : Except CoordErr (ℚ × ℚ) :=
  if zoom > 31 then .error .zoomTooHigh
  else if lat < -850511 / 10000 ∨ lat > 850511 / 10000 then .error .latInvalid
  else if lon < -180 ∨ lon > 180 then .error .lonInvalid
  else
    let n : ℚ := 2 ^ zoom
    let latRad := lat * piQ / 180
    .ok (n * ((lon + 180) / 360), n * (1 - logTanSec latRad / piQ) / 2)

/-- `TileLoader::zoomToResolution`.  `cosQ r` abstracts `std::cos(r)`.
The body contains no validation and no throw, hence always `Except.ok`
(for `zoom ≥ 32` the C++ shift `1 << zoom` is undefined behavior, but no
`std::invalid_argument` is raised on any path). -/
def zoomToResolution (piQ : ℚ) (cosQ : ℚ → ℚ) (lat : ℚ) (zoom : ℕ) :
    Except CoordErr ℚ :=
  let latRad := lat * piQ / 180
  .ok (156543034 / 1000000 * cosQ latRad / 2 ^ zoom)

/-! ## Proxy configurator -/

/-- The proxy constructed in the `TileLoader` constructor
(`QNetworkProxy(HttpProxy, host, port)`). -/
structure ProxySettings where
  host : String
  port : ℕ
  deriving DecidableEq, Repr

/-- `QString::toUInt`: decimal parse (optional leading `'+'`); `0` on any
parse failure or on overflow past `UINT_MAX`. -/
def toUIntQ (s : String) : ℕ :=
  let l := match s.data with
    | '+' :: r => r
    | l => l
  if l ≠ [] ∧ l.all Char.isDigit ∧ decimalVal l < 4294967296 then
    decimalVal l
  else 0

/-- The proxy parsing in the `TileLoader` constructor: split the proxy spec
on `':'`; exactly two fields configure `(host, port.toUInt())`, anything
else leaves the default-constructed empty-host proxy.  The port parameter
of `QNetworkProxy(HttpProxy, host, port)` is `quint16`, so the 32-bit
result of `toUInt` is narrowed modulo `2^16` on the way in. -/
def initProxy (proxy : String) : ProxySettings :=
  let kStr := (splitSep ':' proxy.data).map (fun l => String.mk l)
  if kStr.length = 2 then
    ⟨kStr.getD 0 "", toUIntQ (kStr.getD 1 "") % 65536⟩
  else
    ⟨"", 0⟩

/-- The transport configuration a batch runs with. -/
inductive Transport where
  | system
  | proxied (host : String) (port : ℕ)
  deriving DecidableEq, Repr

/-- The proxy application in `start()`: an empty host name keeps the system
configuration, otherwise the parsed HTTP proxy is installed on the network
access manager. -/
def startTransport (p : ProxySettings) : Transport :=
  if p.host = "" then .system else .proxied p.host p.port

/-! ## URL template resolver and cache paths -/

/-- `TileLoader::uriForTile`: substitute the decimal forms of `x`, `y` and
the zoom for the case-insensitive placeholders in the service template
(in this order: x, then y, then z).  Uses the intended replace-all
semantics `replaceToken`; see `replaceLoopRel` for the defect of the loop
as written. -/
def uriForTile (cfg : TileCfg) (x y : ℤ) : String :=
  String.mk
    (replaceToken 'z' (natRepr cfg.zoom)
      (replaceToken 'y' (intRepr y)
        (replaceToken 'x' (intRepr x) cfg.objectUri.data)))

/-- `TileLoader::cachedNameForTile`:
`"x" + number(x) + "_y" + number(y) + "_z" + number(z) + ".jpg"`. -/
def cachedNameForTile (x y z : ℤ) : String :=
  String.mk
    ('x' :: intRepr x ++ '_' :: 'y' :: intRepr y ++ '_' :: 'z' :: intRepr z
      ++ ['.', 'j', 'p', 'g'])

/-- `TileLoader::cachedPathForTile`:
`QDir::cleanPath(cache_path_ + QDir::separator() + cachedNameForTile(x,y,z))`. -/
def cachedPathForTile (dir : String) (x y z : ℤ) : String :=
  String.mk (cleanPathL (dir.data ++ '/' :: (cachedNameForTile x y z).data))

/-! ## Batch orchestrator -/

/-- `TileLoader::maxTiles`: `(1 << zoom) - 1`. -/
def maxTiles (cfg : TileCfg) : ℤ := 2 ^ cfg.zoom - 1

/-- Lower x bound of the loaded rectangle: `max(0, center_tile_x_ - blocks_)`. -/
def minX (cfg : TileCfg) : ℤ := max 0 (cfg.centerTileX - cfg.blocks)

/-- Lower y bound: `max(0, center_tile_y_ - blocks_)`. -/
def minY (cfg : TileCfg) : ℤ := max 0 (cfg.centerTileY - cfg.blocks)

/-- Upper x bound: `min(maxTiles(), center_tile_x_ + blocks_)`. -/
def maxX (cfg : TileCfg) : ℤ := min (maxTiles cfg) (cfg.centerTileX + cfg.blocks)

/-- Upper y bound: `min(maxTiles(), center_tile_y_ + blocks_)`. -/
def maxY (cfg : TileCfg) : ℤ := min (maxTiles cfg) (cfg.centerTileY + cfg.blocks)

/-- The integers from `lo` to `hi` inclusive, in increasing order (one `for`
loop of `start()`). -/
def intRange (lo hi : ℤ) : List ℤ :=
  (List.range (hi + 1 - lo).toNat).map (fun (i : ℕ) => lo + (i : ℤ))

/-- The cell enumeration order of the two nested loops of `start()`:
`y` outer from `min_y` to `max_y`, `x` inner from `min_x` to `max_x`. -/
def grid (cfg : TileCfg) : List (ℤ × ℤ) :=
  (intRange (minY cfg) (maxY cfg)).flatMap
    (fun y => (intRange (minX cfg) (maxX cfg)).map (fun x => (x, y)))

/-- The outputs accumulated by the request-initiation loop of `start()`:
the tile records pushed onto `tiles_`, the issued requests (handle id and
URL, in order), and the emitted signals. -/
structure BatchOut where
  tiles : List MapTile
  requests : List (ℕ × String)
  events : List Event
  deriving DecidableEq, Repr

/-- The body of the nested loops of `start()` over the cell list, taking the
next fresh handle id: a cell whose cache file exists becomes a cache-hit
record; otherwise, unless offline, a request is issued (emitting
`initiatedRequest`) and a pending record created; otherwise the cell is
skipped entirely. -/
def runGrid (cfg : TileCfg) (disk : String → Option Image) :
    ℕ → List (ℤ × ℤ) → BatchOut
  | _, [] => ⟨[], [], []⟩
  | nid, xy :: rest =>
    let fullPath := cachedPathForTile cfg.cachePath xy.1 xy.2 cfg.zoom
    match disk fullPath with
    | some img =>
      let o := runGrid cfg disk nid rest
      { o with tiles := MapTile.mkCache xy.1 xy.2 cfg.zoom img :: o.tiles }
    | none =>
      if cfg.offlineMode then runGrid cfg disk nid rest
      else
        let url := uriForTile cfg xy.1 xy.2
        let o := runGrid cfg disk (nid + 1) rest
        ⟨MapTile.mkFetch xy.1 xy.2 cfg.zoom nid :: o.tiles,
          (nid, url) :: o.requests,
          Event.initiatedRequest url :: o.events⟩

/-- `TileLoader::checkIfLoadingComplete`: every tile of the current batch
holds an image; when so, `finishedLoading` is emitted. -/
def checkIfLoadingComplete (tiles : List MapTile) : Bool :=
  tiles.all MapTile.hasImage

/-- `TileLoader::abort`: clear all tile records and destroy the network
access manager (cancelling every outstanding request). -/
def abort (st : LoaderState) : LoaderState :=
  { st with tiles := [] }

/-- `TileLoader::start`: abort the previous batch, enumerate the clamped
rectangle issuing requests for the cache misses, then perform one
completion check.  Returns the new state, the issued requests and the
emitted signals. -/
def start (cfg : TileCfg) (disk : String → Option Image) (st : LoaderState) :
    LoaderState × List (ℕ × String) × List Event :=
  let st0 := abort st
  let o := runGrid cfg disk st0.nextId (grid cfg)
  (⟨o.tiles, st0.urlRedirectedTo, st0.nextId + o.requests.length⟩,
    o.requests,
    o.events ++ if checkIfLoadingComplete o.tiles then [Event.finishedLoading] else [])

/-- `TileLoader::redirectUrl`: follow the redirection target only when it is
nonempty and differs from the target followed last. -/
def redirectUrl (possibleRedirectUrl oldRedirectUrl : String) : String :=
  if possibleRedirectUrl ≠ "" ∧ possibleRedirectUrl ≠ oldRedirectUrl then
    possibleRedirectUrl
  else ""

/-- Replace the first tile whose pending handle is `i` by the tile with the
decoded image stored (`tile.setImage(image)` on the record found by
`std::find_if`). -/
def setTileImage (i : ℕ) (img : Image) : List MapTile → List MapTile
  | [] => []
  | t :: ts =>
    if t.reply = some i then t.setImage img :: ts
    else t :: setTileImage i img ts

/-- `TileLoader::finishedRequest`.  First the redirect bookkeeping:
`_urlRedirectedTo` is reassigned from `redirectUrl`; when nonempty, a
warning is emitted and a new request to the redirect target is issued
WITHOUT being attached to any tile record (the source drops the new
`QNetworkReply*`).  Otherwise the completed reply is matched against the
current records; an unmatched reply is ignored; a matched one stores the
decoded image (persisting it to the cache) or reports a decode or
transport error, and the batch completion check runs.  (The JPEG
re-encoding of the image onto the cache path, a filesystem write, is not
modelled; no claim depends on it.) -/
def finishedRequest (_cfg : TileCfg) (st : LoaderState) (r : Reply) :
    LoaderState × List (ℕ × String) × List Event :=
  let newRedirect := redirectUrl r.redirect st.urlRedirectedTo
  if newRedirect ≠ "" then
    ({ st with urlRedirectedTo := newRedirect, nextId := st.nextId + 1 },
      [(st.nextId, newRedirect)],
      [Event.warnOcurred
        (String.append "QNAMRedirect::replyFinished: Redirected to " newRedirect)])
  else
    let st1 := { st with urlRedirectedTo := newRedirect }
    match st1.tiles.find? (fun t => decide (t.reply = some r.id)) with
    | none => (st1, [], [])
    | some _ =>
      let handled : List MapTile × List Event :=
        if r.error = false then
          match r.decoded with
          | some img =>
            (setTileImage r.id img st1.tiles, [Event.receivedImage r.url])
          | none =>
            (st1.tiles,
              [Event.errorOcurred
                (String.append "Unable to decode image at " r.url)])
        else
          (st1.tiles,
            [Event.errorOcurred (String.append "Failed loading " r.url)])
      ({ st1 with tiles := handled.1 }, [],
        handled.2 ++
          if checkIfLoadingComplete handled.1 then [Event.finishedLoading] else [])

/-- Deliver a sequence of completed replies to `finishedRequest`, collecting
the emitted signals. -/
def runReplies (cfg : TileCfg) (st : LoaderState) :
    List Reply → LoaderState × List Event
  | [] => (st, [])
  | r :: rs =>
    let s1 := finishedRequest cfg st r
    let s2 := runReplies cfg s1.1 rs
    (s2.1, s1.2.2 ++ s2.2)

/-- Number of `finishedLoading` signals in a trace. -/
def countFin (evs : List Event) : ℕ :=
  evs.countP (fun e => decide (e = Event.finishedLoading))

end TileLoader

/-! # Lemmas -/

theorem natReprAux_congr (n : ℕ) : ∀ f1 f2 : ℕ, n < f1 → n < f2 →
    natReprAux f1 n = natReprAux f2 n := by
  induction n using Nat.strong_induction_on with
  | _ n ih =>
    intro f1 f2 h1 h2
    match f1, f2 with
    | a + 1, b + 1 =>
      by_cases h : n < 10
      · simp [natReprAux, h]
      · simp only [natReprAux, if_neg h]
        have hd : n / 10 < n := Nat.div_lt_self (by omega) (by omega)
        rw [ih (n / 10) hd a b (by omega) (by omega)]

theorem natRepr_eq_of_lt {n : ℕ} (h : n < 10) :
    natRepr n = [Char.ofNat (48 + n)] := by
  rw [natRepr, natReprAux]
  simp [h]

theorem natRepr_eq_of_ge {n : ℕ} (h : ¬ n < 10) :
    natRepr n = natRepr (n / 10) ++ [Char.ofNat (48 + n % 10)] := by
  rw [natRepr, natReprAux]
  rw [if_neg h, natRepr]
  have hd : n / 10 < n := Nat.div_lt_self (by omega) (by omega)
  rw [natReprAux_congr (n / 10) n (n / 10 + 1) (by omega) (by omega)]

/-- Every character of `natRepr n` is a decimal digit. -/
theorem natRepr_digits (n : ℕ) : ∀ c ∈ natRepr n, c.isDigit := by
  induction n using Nat.strong_induction_on with
  | _ n ih =>
    by_cases h : n < 10
    · rw [natRepr_eq_of_lt h]
      intro c hc
      simp only [List.mem_singleton] at hc
      subst hc
      interval_cases n <;> decide
    · rw [natRepr_eq_of_ge h]
      intro c hc
      rw [List.mem_append] at hc
      rcases hc with hc | hc
      · exact ih (n / 10) (Nat.div_lt_self (by omega) (by omega)) c hc
      · simp only [List.mem_singleton] at hc
        subst hc
        have h10 : n % 10 < 10 := Nat.mod_lt _ (by omega)
        set m := n % 10 with hm
        interval_cases m <;> decide

theorem decimalVal_append_digit (l : List Char) (c : Char) :
    decimalVal (l ++ [c]) = 10 * decimalVal l + (c.toNat - 48) := by
  simp only [decimalVal, List.foldl_append, List.foldl_cons, List.foldl_nil]
  omega

theorem decimalVal_natRepr (n : ℕ) : decimalVal (natRepr n) = n := by
  induction n using Nat.strong_induction_on with
  | _ n ih =>
    by_cases h : n < 10
    · rw [natRepr_eq_of_lt h]
      simp only [decimalVal, List.foldl_cons, List.foldl_nil]
      have : (Char.ofNat (48 + n)).toNat = 48 + n := by
        interval_cases n <;> decide
      omega
    · rw [natRepr_eq_of_ge h, decimalVal_append_digit]
      rw [ih (n / 10) (Nat.div_lt_self (by omega) (by omega))]
      have h10 : n % 10 < 10 := Nat.mod_lt _ (by omega)
      have : (Char.ofNat (48 + n % 10)).toNat = 48 + n % 10 := by
        set m := n % 10 with hm
        interval_cases m <;> decide
      omega

theorem natRepr_injective {a b : ℕ} (h : natRepr a = natRepr b) : a = b := by
  have := decimalVal_natRepr a
  rw [h, decimalVal_natRepr] at this
  omega

/-! # Claim C2 -/

/-- C2 counterexample: the claim asserts that the ground-resolution
computation `zoomToResolution` fails with an invalid-argument condition at
`zoom = 32`, `lat = 86`; but `zoomToResolution` contains no validation and
returns a value there (shown at a concrete instantiation of its abstracted
`M_PI` and `cos` parameters). -/
theorem c2_counterexample :
    (TileLoader.zoomToResolution 3 (fun q => q) 86 32).isOk = true := rfl

/-- C2 (amended): `latLonToTileCoords` fails with an invalid-argument
condition whenever `zoom = 32`, or `lat = 86`, or `lat = -86`, or
`lon = 181`, or `lon = -181`, and succeeds at the boundary values
`lat = ±85.0511`, `lon = ±180`, `zoom = 31`; `zoomToResolution` performs no
validation and never fails, for any arguments. -/
theorem c2_amended (piQ : ℚ) (f g : ℚ → ℚ) :
    (∀ lat lon : ℚ, (TileLoader.latLonToTileCoords piQ f lat lon 32).isOk = false)
    ∧ (∀ (lon : ℚ) (zoom : ℕ),
        (TileLoader.latLonToTileCoords piQ f 86 lon zoom).isOk = false)
    ∧ (∀ (lon : ℚ) (zoom : ℕ),
        (TileLoader.latLonToTileCoords piQ f (-86) lon zoom).isOk = false)
    ∧ (∀ (lat : ℚ) (zoom : ℕ),
        (TileLoader.latLonToTileCoords piQ f lat 181 zoom).isOk = false)
    ∧ (∀ (lat : ℚ) (zoom : ℕ),
        (TileLoader.latLonToTileCoords piQ f lat (-181) zoom).isOk = false)
    ∧ (TileLoader.latLonToTileCoords piQ f (850511 / 10000) 180 31).isOk = true
    ∧ (TileLoader.latLonToTileCoords piQ f (-850511 / 10000) (-180) 31).isOk = true
    ∧ (∀ (lat : ℚ) (zoom : ℕ),
        (TileLoader.zoomToResolution piQ g lat zoom).isOk = true) := by
  refine ⟨?_, ?_, ?_, ?_, ?_, ?_, ?_, ?_⟩
  · intro lat lon
    unfold TileLoader.latLonToTileCoords
    rw [if_pos (by norm_num)]
    rfl
  · intro lon zoom
    by_cases hz : zoom > 31
    · unfold TileLoader.latLonToTileCoords
      rw [if_pos hz]
      rfl
    · unfold TileLoader.latLonToTileCoords
      rw [if_neg hz, if_pos (by norm_num)]
      rfl
  · intro lon zoom
    by_cases hz : zoom > 31
    · unfold TileLoader.latLonToTileCoords
      rw [if_pos hz]
      rfl
    · unfold TileLoader.latLonToTileCoords
      rw [if_neg hz, if_pos (by norm_num)]
      rfl
  · intro lat zoom
    by_cases hz : zoom > 31
    · unfold TileLoader.latLonToTileCoords
      rw [if_pos hz]
      rfl
    · by_cases h1 : lat < -850511 / 10000 ∨ lat > 850511 / 10000
      · unfold TileLoader.latLonToTileCoords
        rw [if_neg hz, if_pos h1]
        rfl
      · unfold TileLoader.latLonToTileCoords
        rw [if_neg hz, if_neg h1, if_pos (by norm_num)]
        rfl
  · intro lat zoom
    by_cases hz : zoom > 31
    · unfold TileLoader.latLonToTileCoords
      rw [if_pos hz]
      rfl
    · by_cases h1 : lat < -850511 / 10000 ∨ lat > 850511 / 10000
      · unfold TileLoader.latLonToTileCoords
        rw [if_neg hz, if_pos h1]
        rfl
      · unfold TileLoader.latLonToTileCoords
        rw [if_neg hz, if_neg h1, if_pos (by norm_num)]
        rfl
  · unfold TileLoader.latLonToTileCoords
    rw [if_neg (by norm_num), if_neg (by norm_num), if_neg (by norm_num)]
    rfl
  · unfold TileLoader.latLonToTileCoords
    rw [if_neg (by norm_num), if_neg (by norm_num), if_neg (by norm_num)]
    rfl
  · intro lat zoom
    rfl

/-- C2 witness: the amended theorem applied at a concrete instantiation of
the abstracted transcendental parameters: the tile-coordinate conversion
rejects `lat = 86` at `zoom = 32`, while the resolution computation accepts
`zoom = 31`. -/
theorem c2_witness :
    (TileLoader.latLonToTileCoords 3 (fun q => q) 86 0 32).isOk = false
    ∧ (TileLoader.zoomToResolution 3 (fun q => q) 5 31).isOk = true :=
  ⟨(c2_amended 3 (fun q => q) (fun q => q)).1 86 0,
    (c2_amended 3 (fun q => q) (fun q => q)).2.2.2.2.2.2.2 5 31⟩

/-! # Claim C9 -/

/-- C9 counterexample: the proxy spec `":80"` splits into exactly two
colon-delimited fields, yet no HTTP proxy is applied — `start()` finds the
parsed host name empty and keeps the system transport configuration. -/
theorem c9_counterexample :
    (splitSep ':' (":80").data).length = 2
    ∧ TileLoader.startTransport (TileLoader.initProxy ":80")
        = TileLoader.Transport.system := by
  constructor
  · rfl
  · rfl

/-- C9 (amended): a proxy spec that does not split into exactly two
colon-delimited fields disables proxying (system/default transport); one
that splits into exactly two fields with a NONEMPTY first field configures
an HTTP proxy with that host and the second field parsed by
`QString::toUInt` and narrowed to `QNetworkProxy`'s `quint16` port (modulo
`2^16`); a two-field split with an empty host also falls back to the
system transport. -/
theorem c9_amended (s : String) :
    ((splitSep ':' s.data).length ≠ 2 →
      TileLoader.startTransport (TileLoader.initProxy s)
        = TileLoader.Transport.system)
    ∧ (∀ host port : List Char,
        splitSep ':' s.data = [host, port] → host ≠ [] →
        TileLoader.startTransport (TileLoader.initProxy s)
          = TileLoader.Transport.proxied (String.mk host)
              (TileLoader.toUIntQ (String.mk port) % 65536))
    ∧ (∀ port : List Char,
        splitSep ':' s.data = [[], port] →
        TileLoader.startTransport (TileLoader.initProxy s)
          = TileLoader.Transport.system) := by
  refine ⟨?_, ?_, ?_⟩
  · intro h
    unfold TileLoader.initProxy
    rw [if_neg (by simpa using h)]
    rfl
  · intro host port hsplit hne
    have hs : (⟨host⟩ : String) ≠ "" := by
      intro hc
      exact hne (congrArg String.data hc)
    unfold TileLoader.initProxy
    rw [hsplit]
    simp only [List.map_cons, List.map_nil, List.length_cons, List.length_nil]
    rw [if_pos trivial]
    unfold TileLoader.startTransport
    simp only [List.getD_cons_zero, List.getD_cons_succ]
    rw [if_neg hs]
  · intro port hsplit
    unfold TileLoader.initProxy
    rw [hsplit]
    rfl

/-- C9 witness: the amended theorem applied to the concrete proxy specs
`"myhost:8080"` (two fields, nonempty host: proxy applied on port 8080),
`"h:70000"` (port field past `quint16`: the applied port wraps to
`70000 mod 65536 = 4464`) and `"a:b:c"` (three fields: system
transport). -/
theorem c9_witness :
    TileLoader.startTransport (TileLoader.initProxy "myhost:8080")
      = TileLoader.Transport.proxied "myhost" 8080
    ∧ TileLoader.startTransport (TileLoader.initProxy "h:70000")
      = TileLoader.Transport.proxied "h" 4464
    ∧ TileLoader.startTransport (TileLoader.initProxy "a:b:c")
      = TileLoader.Transport.system := by
  refine ⟨?_, ?_, ?_⟩
  · have h := (c9_amended "myhost:8080").2.1 ("myhost").data ("8080").data
      (by decide) (by decide)
    rw [h]
    rfl
  · have h := (c9_amended "h:70000").2.1 ("h").data ("70000").data
      (by decide) (by decide)
    rw [h]
    rfl
  · exact (c9_amended "a:b:c").1 (by decide)

/-! # Claim C6 -/

/-- C6: evaluation of the source's `replaceRegex` loop (faithful index
model `replaceLoopRel`, in the equal-length regime where the behavior of
the C++ is deterministic) at the failing input: template `"{x}/{x}"` with
`x = 100`.  The claim demands that every occurrence be replaced, yielding
`"100/100"` — the intended semantics `replaceToken` produces exactly that —
but the loop as written patches the second match at an offset relative to
the wrong origin and produces `"1100{x}"`. -/
theorem c6_replaceRegex_bug :
    replaceLoopRel ['{', 'x', '}'] (natRepr 100) (("{x}/{x}").data)
      = ("1100{x}").data
    ∧ replaceToken 'x' (natRepr 100) (("{x}/{x}").data) = ("100/100").data
    ∧ ("1100{x}").data ≠ ("100/100").data
    ∧ TileLoader.uriForTile ⟨"http://x/{z}/{x}/{y}.png", 7, 0, 0, 0, false,
        "/c"⟩ 3 5 = "http://x/7/3/5.png" := by
  refine ⟨by decide, by decide, by decide, by decide⟩

/-! # Claim C10 -/

theorem runGrid_nil_of_tiles_nil (cfg : TileCfg) (disk : String → Option Image) :
    ∀ (l : List (ℤ × ℤ)) (nid : ℕ),
      (TileLoader.runGrid cfg disk nid l).tiles = [] →
      (TileLoader.runGrid cfg disk nid l).requests = []
      ∧ (TileLoader.runGrid cfg disk nid l).events = [] := by
  intro l
  induction l with
  | nil => exact fun nid _ => ⟨rfl, rfl⟩
  | cons xy rest ih =>
    intro nid h
    cases hd : disk (TileLoader.cachedPathForTile cfg.cachePath xy.1 xy.2 cfg.zoom) with
    | some img =>
      exfalso
      simp [TileLoader.runGrid, hd] at h
    | none =>
      by_cases hoff : cfg.offlineMode
      · simp only [TileLoader.runGrid, hd, hoff, if_true] at h ⊢
        exact ih nid h
      · exfalso
        simp [TileLoader.runGrid, hd, hoff] at h

/-- C10: when `start()` creates no tile record at all (for instance every
tile of the clamped rectangle is a cache miss while offline), the
completion check over the empty record collection passes vacuously and the
signals emitted by `start()` are exactly one `finishedLoading`, emitted
synchronously within `start()`. -/
theorem c10_empty_batch (cfg : TileCfg) (disk : String → Option Image)
    (st : LoaderState)
    (h : (TileLoader.start cfg disk st).1.tiles = []) :
    (TileLoader.start cfg disk st).2.2 = [Event.finishedLoading] := by
  simp only [TileLoader.start, TileLoader.abort] at h ⊢
  obtain ⟨-, hev⟩ := runGrid_nil_of_tiles_nil cfg disk (TileLoader.grid cfg)
    st.nextId h
  rw [hev]
  simp [h, TileLoader.checkIfLoadingComplete]

/-- C10 witness: a one-tile rectangle, offline, with an empty cache:
`start()` creates no record and emits exactly `[finishedLoading]`. -/
theorem c10_witness :
    (TileLoader.start ⟨"u", 0, 0, 0, 0, true, "/c"⟩ (fun _ => none)
      ⟨[], "", 0⟩).2.2 = [Event.finishedLoading] :=
  c10_empty_batch ⟨"u", 0, 0, 0, 0, true, "/c"⟩ (fun _ => none) ⟨[], "", 0⟩
    (by decide)

/-! # Claim C1 -/

theorem mkCache_x (x y : ℤ) (z : ℕ) (img : Image) :
    (MapTile.mkCache x y z img).x = x := rfl

theorem mkCache_y (x y : ℤ) (z : ℕ) (img : Image) :
    (MapTile.mkCache x y z img).y = y := rfl

theorem fin_mem_ite (b : Bool) :
    Event.finishedLoading ∈ (if b = true then [Event.finishedLoading] else [])
      ↔ b = true := by
  cases b <;> simp

theorem runGrid_offline (cfg : TileCfg) (disk : String → Option Image)
    (hoff : cfg.offlineMode = true) :
    ∀ (l : List (ℤ × ℤ)) (nid : ℕ),
      TileLoader.runGrid cfg disk nid l =
        ⟨l.filterMap (fun xy =>
            (disk (TileLoader.cachedPathForTile cfg.cachePath xy.1 xy.2 cfg.zoom)).map
              (fun img => MapTile.mkCache xy.1 xy.2 cfg.zoom img)),
          [], []⟩ := by
  intro l
  induction l with
  | nil => intro nid; rfl
  | cons xy rest ih =>
    intro nid
    cases hd : disk (TileLoader.cachedPathForTile cfg.cachePath xy.1 xy.2 cfg.zoom) with
    | some img =>
      simp [TileLoader.runGrid, hd, ih nid, List.filterMap_cons]
    | none =>
      simp [TileLoader.runGrid, hd, hoff, ih nid, List.filterMap_cons]

theorem coords_filterMap_cache (cfg : TileCfg) (disk : String → Option Image) :
    ∀ l : List (ℤ × ℤ),
      (l.filterMap (fun xy =>
          (disk (TileLoader.cachedPathForTile cfg.cachePath xy.1 xy.2 cfg.zoom)).map
            (fun img => MapTile.mkCache xy.1 xy.2 cfg.zoom img))).map
          (fun t => (t.x, t.y))
        = l.filter (fun xy =>
            (disk (TileLoader.cachedPathForTile cfg.cachePath xy.1 xy.2 cfg.zoom)).isSome) := by
  intro l
  induction l with
  | nil => rfl
  | cons xy rest ih =>
    cases hd : disk (TileLoader.cachedPathForTile cfg.cachePath xy.1 xy.2 cfg.zoom) with
    | some img =>
      simp [List.filterMap_cons, List.filter_cons, hd, ih, mkCache_x, mkCache_y]
    | none =>
      simp [List.filterMap_cons, List.filter_cons, hd, ih]

/-- C1 counterexample: with offline mode enabled, an empty cache and a
one-tile rectangle (a cache-miss tile, for which indeed no fetch is
issued), `start()` nevertheless emits the batch-complete signal
`finishedLoading` — refuting the claim that it is never emitted for a batch
containing an offline cache miss.  (The source creates no record at all for
an offline cache miss, so the completion check does not see it.) -/
theorem c1_counterexample :
    ((0, 0) ∈ TileLoader.grid ⟨"t", 0, 0, 0, 0, true, "/cache"⟩
      ∧ (fun (_ : String) => (none : Option Image))
          (TileLoader.cachedPathForTile "/cache" 0 0 0) = none)
    ∧ Event.finishedLoading ∈
        (TileLoader.start ⟨"t", 0, 0, 0, 0, true, "/cache"⟩
          (fun _ => (none : Option Image)) ⟨[], "", 0⟩).2.2 := by
  refine ⟨⟨by decide, rfl⟩, by decide⟩

/-- C1 (amended): with offline mode enabled, `start()` issues no fetch at
all; cache-miss tiles get NO tile record (rather than an imageless one), so
the batch consists exactly of the cache-hit records; consequently
`finishedLoading` is emitted by `start()` precisely when every created
(cache-hit) record holds an image — in particular it can fire for a batch
whose rectangle contained offline cache misses. -/
theorem c1_amended (cfg : TileCfg) (disk : String → Option Image)
    (st : LoaderState) (hoff : cfg.offlineMode = true) :
    (TileLoader.start cfg disk st).2.1 = []
    ∧ ((TileLoader.start cfg disk st).1.tiles.map (fun t => (t.x, t.y))
        = (TileLoader.grid cfg).filter (fun xy =>
            (disk (TileLoader.cachedPathForTile cfg.cachePath xy.1 xy.2
              cfg.zoom)).isSome))
    ∧ (Event.finishedLoading ∈ (TileLoader.start cfg disk st).2.2
        ↔ TileLoader.checkIfLoadingComplete
            (TileLoader.start cfg disk st).1.tiles = true) := by
  have hrg := runGrid_offline cfg disk hoff (TileLoader.grid cfg) st.nextId
  refine ⟨?_, ?_, ?_⟩
  · show (TileLoader.runGrid cfg disk st.nextId (TileLoader.grid cfg)).requests = []
    rw [hrg]
  · show (TileLoader.runGrid cfg disk st.nextId (TileLoader.grid cfg)).tiles.map _ = _
    rw [hrg]
    exact coords_filterMap_cache cfg disk (TileLoader.grid cfg)
  · simp only [TileLoader.start, TileLoader.abort, hrg]
    simp [fin_mem_ite]

/-- C1 witness: the amended theorem at a concrete offline configuration
with one cached tile on disk: no request is issued, the sole record is the
cache hit, and `finishedLoading` fires. -/
theorem c1_witness :
    (TileLoader.start ⟨"t", 0, 0, 0, 0, true, "/cache"⟩
        (fun p => if p = TileLoader.cachedPathForTile "/cache" 0 0 0
          then some (some 7) else none) ⟨[], "", 3⟩).2.1 = []
    ∧ Event.finishedLoading ∈
        (TileLoader.start ⟨"t", 0, 0, 0, 0, true, "/cache"⟩
          (fun p => if p = TileLoader.cachedPathForTile "/cache" 0 0 0
            then some (some 7) else none) ⟨[], "", 3⟩).2.2 := by
  have h := c1_amended ⟨"t", 0, 0, 0, 0, true, "/cache"⟩
    (fun p => if p = TileLoader.cachedPathForTile "/cache" 0 0 0
      then some (some 7) else none) ⟨[], "", 3⟩ rfl
  exact ⟨h.1, h.2.2.mpr (by decide)⟩

/-! # Claim C3 -/

/-- C3 counterexample: a pending tile with handle `0`; its reply completes
carrying redirect target `"B"` (different from the last-followed target,
here none).  Exactly one follow-up request is issued with the fresh handle
`1`, but — contrary to the claim — the new handle does NOT replace the
handle of the tile's record: the record still holds handle `0`, and
handle `1` is attached to no record. -/
theorem c3_counterexample :
    (TileLoader.finishedRequest ⟨"u", 0, 0, 0, 0, false, "/c"⟩
        ⟨[MapTile.mkFetch 0 0 0 0], "", 1⟩ ⟨0, "A", "B", false, none⟩).2.1
      = [(1, "B")]
    ∧ (TileLoader.finishedRequest ⟨"u", 0, 0, 0, 0, false, "/c"⟩
        ⟨[MapTile.mkFetch 0 0 0 0], "", 1⟩ ⟨0, "A", "B", false, none⟩).1.tiles
      = [MapTile.mkFetch 0 0 0 0]
    ∧ (MapTile.mkFetch 0 0 0 0).reply = some 0
    ∧ (0 : ℕ) ≠ 1 := by
  refine ⟨by decide, by decide, by decide, by decide⟩

/-- C3 (amended): a completion carrying a redirect target different from
the target last followed issues exactly one follow-up request to that
target (with a fresh handle), creates no record and leaves every existing
record — including its old handle — unchanged, so the new handle is
associated with no Tile Record; a completion whose redirect target equals
the target just followed issues no request at all. -/
theorem c3_amended (cfg : TileCfg) (st : LoaderState) (r : Reply) :
    (r.redirect ≠ "" → r.redirect ≠ st.urlRedirectedTo →
      (TileLoader.finishedRequest cfg st r).2.1 = [(st.nextId, r.redirect)]
      ∧ (TileLoader.finishedRequest cfg st r).1.tiles = st.tiles)
    ∧ (r.redirect = st.urlRedirectedTo →
      (TileLoader.finishedRequest cfg st r).2.1 = []) := by
  constructor
  · intro h1 h2
    have hred : TileLoader.redirectUrl r.redirect st.urlRedirectedTo
        = r.redirect := by
      unfold TileLoader.redirectUrl
      rw [if_pos ⟨h1, h2⟩]
    simp only [TileLoader.finishedRequest, hred]
    rw [if_pos h1]
    exact ⟨rfl, rfl⟩
  · intro h
    have hred : TileLoader.redirectUrl r.redirect st.urlRedirectedTo = "" := by
      unfold TileLoader.redirectUrl
      rw [if_neg]
      intro hc
      exact hc.2 h
    simp only [TileLoader.finishedRequest, hred]
    rw [if_neg (by simp)]
    cases hf : st.tiles.find? (fun t => decide (t.reply = some r.id)) with
    | none => simp [hf]
    | some t => simp [hf]

/-- C3 witness: the amended theorem at concrete inputs — a fresh redirect
target `"B"` from a state with no prior redirect issues the single request
`(5, "B")` and leaves the (empty) record list unchanged; a redirect target
equal to the just-followed `"B"` issues nothing. -/
theorem c3_witness :
    ((TileLoader.finishedRequest ⟨"u", 0, 0, 0, 0, false, "/c"⟩ ⟨[], "", 5⟩
        ⟨9, "A", "B", false, none⟩).2.1 = [(5, "B")]
      ∧ (TileLoader.finishedRequest ⟨"u", 0, 0, 0, 0, false, "/c"⟩ ⟨[], "", 5⟩
        ⟨9, "A", "B", false, none⟩).1.tiles = [])
    ∧ (TileLoader.finishedRequest ⟨"u", 0, 0, 0, 0, false, "/c"⟩
        ⟨[MapTile.mkFetch 1 2 3 4], "B", 5⟩ ⟨4, "B", "B", false, none⟩).2.1
      = [] := by
  constructor
  · exact (c3_amended ⟨"u", 0, 0, 0, 0, false, "/c"⟩ ⟨[], "", 5⟩
      ⟨9, "A", "B", false, none⟩).1 (by decide) (by decide)
  · exact (c3_amended ⟨"u", 0, 0, 0, 0, false, "/c"⟩
      ⟨[MapTile.mkFetch 1 2 3 4], "B", 5⟩ ⟨4, "B", "B", false, none⟩).2 rfl

/-! # Claim C5 -/

theorem mkFetch_x (x y : ℤ) (z : ℕ) (rep : ℕ) :
    (MapTile.mkFetch x y z rep).x = x := rfl

theorem mkFetch_y (x y : ℤ) (z : ℕ) (rep : ℕ) :
    (MapTile.mkFetch x y z rep).y = y := rfl

theorem mem_intRange {lo hi a : ℤ} :
    a ∈ TileLoader.intRange lo hi ↔ lo ≤ a ∧ a ≤ hi := by
  simp only [TileLoader.intRange, List.mem_map, List.mem_range]
  constructor
  · rintro ⟨i, h1, rfl⟩
    omega
  · intro h
    exact ⟨(a - lo).toNat, by omega, by omega⟩

theorem pairwise_intRange (lo hi : ℤ) :
    List.Pairwise (· < ·) (TileLoader.intRange lo hi) := by
  unfold TileLoader.intRange
  rw [List.pairwise_map]
  exact (List.pairwise_lt_range _).imp (fun h => by omega)

/-- Row-major order: the pair `(x, y)` enumeration produced by iterating
`y` in an outer strictly increasing loop and `x` in an inner strictly
increasing loop is lexicographically sorted with `y` dominant. -/
theorem pairwise_rows (xs : List ℤ) (hxs : List.Pairwise (· < ·) xs) :
    ∀ ys : List ℤ, List.Pairwise (· < ·) ys →
      List.Pairwise
        (fun a b : ℤ × ℤ => a.2 < b.2 ∨ (a.2 = b.2 ∧ a.1 < b.1))
        (ys.flatMap (fun y => xs.map (fun x => (x, y)))) := by
  intro ys
  induction ys with
  | nil => intro _; simp
  | cons y ys ih =>
    intro hp
    rw [List.pairwise_cons] at hp
    rw [List.flatMap_cons, List.pairwise_append]
    refine ⟨?_, ih hp.2, ?_⟩
    · rw [List.pairwise_map]
      exact hxs.imp (fun h => Or.inr ⟨rfl, h⟩)
    · intro a ha b hb
      rw [List.mem_map] at ha
      obtain ⟨xa, -, rfl⟩ := ha
      rw [List.mem_flatMap] at hb
      obtain ⟨yb, hyb, hb⟩ := hb
      rw [List.mem_map] at hb
      obtain ⟨xb, -, rfl⟩ := hb
      exact Or.inl (hp.1 yb hyb)

/-- Coordinates of the records created by the enumeration loop: exactly the
cells kept by the cache-hit / not-offline test, in enumeration order. -/
theorem runGrid_coords (cfg : TileCfg) (disk : String → Option Image) :
    ∀ (l : List (ℤ × ℤ)) (nid : ℕ),
      (TileLoader.runGrid cfg disk nid l).tiles.map (fun t => (t.x, t.y))
        = l.filter (fun xy =>
            (disk (TileLoader.cachedPathForTile cfg.cachePath xy.1 xy.2
              cfg.zoom)).isSome || !cfg.offlineMode) := by
  intro l
  induction l with
  | nil => intro nid; rfl
  | cons xy rest ih =>
    intro nid
    cases hd : disk (TileLoader.cachedPathForTile cfg.cachePath xy.1 xy.2 cfg.zoom) with
    | some img =>
      simp [TileLoader.runGrid, hd, List.filter_cons, ih, mkCache_x, mkCache_y]
    | none =>
      by_cases hoff : cfg.offlineMode
      · simp [TileLoader.runGrid, hd, hoff, List.filter_cons, ih]
      · simp [TileLoader.runGrid, hd, hoff, List.filter_cons, ih, mkFetch_x,
          mkFetch_y]

/-- C5: every record created by `start()` has coordinates inside the
rectangle `[cx-blocks, cx+blocks] × [cy-blocks, cy+blocks]` intersected
with `[0, 2^zoom - 1]` on each axis (the record coordinate list is a
sublist of the clamped-rectangle cell enumeration, so out-of-range rows and
columns are excluded rather than clamped into duplicates), and records are
created in row-major order: the enumeration is lexicographically sorted
with `y` as the outer (dominant) key and `x` as the inner key. -/
theorem c5_rectangle_row_major (cfg : TileCfg) (disk : String → Option Image)
    (st : LoaderState) :
    List.Sublist
      ((TileLoader.start cfg disk st).1.tiles.map (fun t => (t.x, t.y)))
      (TileLoader.grid cfg)
    ∧ (∀ xy : ℤ × ℤ, xy ∈ TileLoader.grid cfg ↔
        (cfg.centerTileX - cfg.blocks ≤ xy.1
          ∧ xy.1 ≤ cfg.centerTileX + cfg.blocks
          ∧ 0 ≤ xy.1 ∧ xy.1 ≤ 2 ^ cfg.zoom - 1
          ∧ cfg.centerTileY - cfg.blocks ≤ xy.2
          ∧ xy.2 ≤ cfg.centerTileY + cfg.blocks
          ∧ 0 ≤ xy.2 ∧ xy.2 ≤ 2 ^ cfg.zoom - 1))
    ∧ List.Pairwise
        (fun a b : ℤ × ℤ => a.2 < b.2 ∨ (a.2 = b.2 ∧ a.1 < b.1))
        (TileLoader.grid cfg) := by
  refine ⟨?_, ?_, ?_⟩
  · show List.Sublist
      ((TileLoader.runGrid cfg disk st.nextId (TileLoader.grid cfg)).tiles.map
        (fun t => (t.x, t.y))) (TileLoader.grid cfg)
    rw [runGrid_coords cfg disk (TileLoader.grid cfg) st.nextId]
    exact List.filter_sublist _
  · intro xy
    simp only [TileLoader.grid, List.mem_flatMap, List.mem_map]
    constructor
    · rintro ⟨y, hy, x, hx, rfl⟩
      rw [mem_intRange] at hy hx
      simp only [TileLoader.minX, TileLoader.maxX, TileLoader.minY,
        TileLoader.maxY, TileLoader.maxTiles] at hy hx
      omega
    · intro h
      refine ⟨xy.2, ?_, xy.1, ?_, rfl⟩
      · rw [mem_intRange]
        simp only [TileLoader.minY, TileLoader.maxY, TileLoader.maxTiles]
        omega
      · rw [mem_intRange]
        simp only [TileLoader.minX, TileLoader.maxX, TileLoader.maxTiles]
        omega
  · exact pairwise_rows _ (pairwise_intRange _ _) _ (pairwise_intRange _ _)

/-- C5 witness: the rectangle-membership characterization applied at a
concrete configuration (`zoom = 1`, one block around the origin tile):
the cell `(0, 0)` lies in the enumerated grid. -/
theorem c5_witness :
    (0, 0) ∈ TileLoader.grid ⟨"u", 1, 1, 0, 0, false, "/c"⟩ :=
  ((c5_rectangle_row_major ⟨"u", 1, 1, 0, 0, false, "/c"⟩ (fun _ => none)
      ⟨[], "", 0⟩).2.1 (0, 0)).mpr (by norm_num)

/-! # Claim C8 -/

/-- The pending handles of a fresh enumeration are exactly the fresh ids
`nid, nid+1, ...`, one per issued request, in order. -/
theorem runGrid_replies (cfg : TileCfg) (disk : String → Option Image) :
    ∀ (l : List (ℤ × ℤ)) (nid : ℕ),
      (TileLoader.runGrid cfg disk nid l).tiles.filterMap MapTile.reply
        = List.range' nid (TileLoader.runGrid cfg disk nid l).requests.length := by
  intro l
  induction l with
  | nil => intro nid; rfl
  | cons xy rest ih =>
    intro nid
    cases hd : disk (TileLoader.cachedPathForTile cfg.cachePath xy.1 xy.2 cfg.zoom) with
    | some img =>
      simp only [TileLoader.runGrid, hd]
      simpa [List.filterMap_cons, MapTile.mkCache, MapTile.reply] using ih nid
    | none =>
      by_cases hoff : cfg.offlineMode
      · simp only [TileLoader.runGrid, hd, hoff, if_true]
        exact ih nid
      · simp only [TileLoader.runGrid, hd, hoff, Bool.false_eq_true, if_false]
        simp only [List.filterMap_cons, MapTile.mkFetch, List.length_cons]
        rw [List.range'_succ]
        simpa using ih (nid + 1)

theorem find_reply_eq_none {tiles : List MapTile} {i : ℕ}
    (h : i ∉ tiles.filterMap MapTile.reply) :
    tiles.find? (fun t => decide (t.reply = some i)) = none := by
  rw [List.find?_eq_none]
  intro t ht
  simp only [decide_eq_true_eq]
  intro hc
  apply h
  rw [List.mem_filterMap]
  exact ⟨t, ht, hc⟩

/-- C8: starting a new batch (`start()` begins with `abort()`) discards all
prior Tile Records — the new record set is exactly the fresh enumeration,
independent of the previous one — and every handle of the new batch is
fresh (at least the current counter value); a late completion carrying any
handle of a discarded batch (id below the counter at the new `start()`)
neither mutates the new record collection nor emits the batch-complete
signal. -/
theorem c8_cancellation (cfg : TileCfg) (disk : String → Option Image)
    (st : LoaderState) :
    (TileLoader.abort st).tiles = []
    ∧ (TileLoader.start cfg disk st).1.tiles
        = (TileLoader.runGrid cfg disk st.nextId (TileLoader.grid cfg)).tiles
    ∧ (∀ i ∈ (TileLoader.start cfg disk st).1.tiles.filterMap MapTile.reply,
        st.nextId ≤ i)
    ∧ (∀ r : Reply, r.id < st.nextId →
        (TileLoader.finishedRequest cfg (TileLoader.start cfg disk st).1 r).1.tiles
          = (TileLoader.start cfg disk st).1.tiles
        ∧ Event.finishedLoading ∉
            (TileLoader.finishedRequest cfg (TileLoader.start cfg disk st).1
              r).2.2) := by
  have hids : (TileLoader.start cfg disk st).1.tiles.filterMap MapTile.reply
      = List.range' st.nextId
          (TileLoader.runGrid cfg disk st.nextId (TileLoader.grid cfg)).requests.length :=
    runGrid_replies cfg disk (TileLoader.grid cfg) st.nextId
  refine ⟨rfl, rfl, ?_, ?_⟩
  · intro i hi
    rw [hids, List.mem_range'_1] at hi
    omega
  · intro r hr
    have hnotin : r.id ∉
        (TileLoader.start cfg disk st).1.tiles.filterMap MapTile.reply := by
      rw [hids, List.mem_range'_1]
      omega
    simp only [TileLoader.finishedRequest]
    by_cases hb : TileLoader.redirectUrl r.redirect
        (TileLoader.start cfg disk st).1.urlRedirectedTo ≠ ""
    · rw [if_pos hb]
      exact ⟨rfl, by simp⟩
    · rw [if_neg hb]
      rw [find_reply_eq_none hnotin]
      exact ⟨rfl, by simp⟩

/-- C8 witness: a prior batch with pending handle `0` is in flight; a new
`start()` (fresh counter `1`) discards it, and the late completion of the
stale handle `0` leaves the new batch's single record (handle `1`)
untouched and emits no `finishedLoading`. -/
theorem c8_witness :
    (TileLoader.abort ⟨[MapTile.mkFetch 0 0 0 0], "", 1⟩).tiles = []
    ∧ (TileLoader.finishedRequest ⟨"u", 0, 0, 0, 0, false, "/c"⟩
        (TileLoader.start ⟨"u", 0, 0, 0, 0, false, "/c"⟩ (fun _ => none)
          ⟨[MapTile.mkFetch 0 0 0 0], "", 1⟩).1
        ⟨0, "A", "", false, some (some 2)⟩).1.tiles
      = (TileLoader.start ⟨"u", 0, 0, 0, 0, false, "/c"⟩ (fun _ => none)
          ⟨[MapTile.mkFetch 0 0 0 0], "", 1⟩).1.tiles
    ∧ Event.finishedLoading ∉
        (TileLoader.finishedRequest ⟨"u", 0, 0, 0, 0, false, "/c"⟩
          (TileLoader.start ⟨"u", 0, 0, 0, 0, false, "/c"⟩ (fun _ => none)
            ⟨[MapTile.mkFetch 0 0 0 0], "", 1⟩).1
          ⟨0, "A", "", false, some (some 2)⟩).2.2 := by
  have h := c8_cancellation ⟨"u", 0, 0, 0, 0, false, "/c"⟩ (fun _ => none)
    ⟨[MapTile.mkFetch 0 0 0 0], "", 1⟩
  have h4 := h.2.2.2 ⟨0, "A", "", false, some (some 2)⟩ (by decide)
  exact ⟨h.1, h4.1, h4.2⟩

/-! # Claim C7 -/

theorem splitSep_ne_nil (sep : Char) (l : List Char) : splitSep sep l ≠ [] := by
  cases l with
  | nil => simp [splitSep]
  | cons a r =>
    unfold splitSep
    by_cases h : a = sep
    · simp [h]
    · rw [if_neg h]
      cases splitSep sep r <;> simp

theorem splitSep_append (sep : Char) (ys : List Char) :
    ∀ xs : List Char,
      splitSep sep (xs ++ sep :: ys) = splitSep sep xs ++ splitSep sep ys := by
  intro xs
  induction xs with
  | nil => simp [splitSep]
  | cons a xs ih =>
    by_cases h : a = sep
    · simp only [List.cons_append, splitSep, if_pos h, List.append_eq, ih,
        List.nil_append]
    · simp only [List.cons_append, splitSep, if_neg h, List.append_eq, ih]
      cases hx : splitSep sep xs with
      | nil => exact absurd hx (splitSep_ne_nil sep xs)
      | cons h0 t0 => simp

theorem splitSep_no_sep {sep : Char} : ∀ {l : List Char}, sep ∉ l →
    splitSep sep l = [l] := by
  intro l
  induction l with
  | nil => intro _; rfl
  | cons a r ih =>
    intro h
    rw [List.mem_cons] at h
    push_neg at h
    unfold splitSep
    rw [if_neg (fun hc => h.1 hc.symm), ih h.2]

theorem cleanSeg_plain (acc : List (List Char)) {c : List Char}
    (h1 : ¬ (c = [] ∨ c = ['.'])) (h2 : c ≠ ['.', '.']) :
    cleanSeg acc c = acc ++ [c] := by
  unfold cleanSeg
  rw [if_neg h1, if_neg h2]

theorem cleanComps_append_name {dir n : List Char} (hn : '/' ∉ n)
    (h1 : ¬ (n = [] ∨ n = ['.'])) (h2 : n ≠ ['.', '.']) :
    cleanComps (dir ++ '/' :: n) = cleanComps dir ++ [n] := by
  unfold cleanComps
  rw [splitSep_append, splitSep_no_sep hn, List.foldl_append]
  simp only [List.foldl_cons, List.foldl_nil]
  exact cleanSeg_plain _ h1 h2

theorem interJoin (n : List Char) :
    ∀ comps : List (List Char), comps ≠ [] →
      (List.intersperse ['/'] (comps ++ [n])).flatten
        = (List.intersperse ['/'] comps).flatten ++ '/' :: n := by
  intro comps
  induction comps with
  | nil => intro h; exact absurd rfl h
  | cons c t ih =>
    intro _
    cases t with
    | nil => simp [List.intersperse]
    | cons c2 t2 =>
      have h2 := ih (by simp)
      simp only [List.cons_append] at h2
      show c ++ (['/'] ++ (List.intersperse ['/'] (c2 :: (t2 ++ [n]))).flatten)
          = (c ++ (['/'] ++ (List.intersperse ['/'] (c2 :: t2)).flatten))
            ++ '/' :: n
      rw [h2]
      simp [List.append_assoc]

theorem joinComps_append_last (b : Bool) {comps : List (List Char)}
    (n : List Char) (h : comps ≠ []) :
    joinComps b (comps ++ [n]) = joinComps b comps ++ '/' :: n := by
  unfold joinComps
  rw [interJoin n comps h, List.append_assoc]

theorem isAbs_append (rest : List Char) {dir : List Char} (h : dir ≠ []) :
    isAbs (dir ++ rest) = isAbs dir := by
  cases dir with
  | nil => exact absurd rfl h
  | cons a t => rfl

theorem intRepr_nonneg {i : ℤ} (h : 0 ≤ i) : intRepr i = natRepr i.toNat := by
  unfold intRepr
  rw [if_neg (by omega)]

theorem intRepr_no_slash (i : ℤ) : ∀ c ∈ intRepr i, c ≠ '/' := by
  intro c hc
  have hdig : ∀ d : Char, d.isDigit → d ≠ '/' := by
    intro d h hd
    subst hd
    exact absurd h (by decide)
  by_cases h : i < 0
  · unfold intRepr at hc
    rw [if_pos h, List.mem_cons] at hc
    rcases hc with hc | hc
    · subst hc; decide
    · exact hdig c (natRepr_digits _ c hc)
  · unfold intRepr at hc
    rw [if_neg h] at hc
    exact hdig c (natRepr_digits _ c hc)

theorem cachedName_data (x y z : ℤ) :
    (TileLoader.cachedNameForTile x y z).data
      = 'x' :: intRepr x ++ '_' :: 'y' :: intRepr y ++ '_' :: 'z' :: intRepr z
          ++ ['.', 'j', 'p', 'g'] := rfl

theorem slash_not_mem_name (x y z : ℤ) :
    '/' ∉ (TileLoader.cachedNameForTile x y z).data := by
  rw [cachedName_data]
  intro hc
  simp at hc
  rcases hc with hc | hc | hc
  · exact intRepr_no_slash x '/' hc rfl
  · exact intRepr_no_slash y '/' hc rfl
  · exact intRepr_no_slash z '/' hc rfl

theorem name_not_special (x y z : ℤ) :
    ¬ ((TileLoader.cachedNameForTile x y z).data = []
        ∨ (TileLoader.cachedNameForTile x y z).data = ['.']) := by
  rw [cachedName_data]
  intro hc
  rcases hc with hc | hc
  · exact absurd hc (by simp)
  · simp only [List.cons_append, List.append_assoc, List.cons_eq_cons] at hc
    exact absurd hc.1 (by decide)

theorem name_not_dotdot (x y z : ℤ) :
    (TileLoader.cachedNameForTile x y z).data ≠ ['.', '.'] := by
  rw [cachedName_data]
  intro hc
  simp only [List.cons_append, List.append_assoc, List.cons_eq_cons] at hc
  exact absurd hc.1 (by decide)

theorem cleanComps_nil : cleanComps [] = [] := rfl

/-- Decomposition of a cache path: the cleaned directory prefix, a
separator, and the exact tile file name. -/
theorem cachedPath_decomp (dir : String) (x y z : ℤ)
    (hdir : cleanComps dir.data ≠ []) :
    (TileLoader.cachedPathForTile dir x y z).data
      = cleanDir dir ++ '/' :: (TileLoader.cachedNameForTile x y z).data := by
  have hne : dir.data ≠ [] := by
    intro h
    rw [h, cleanComps_nil] at hdir
    exact hdir rfl
  show cleanPathL (dir.data ++ '/' :: (TileLoader.cachedNameForTile x y z).data)
      = _
  unfold cleanPathL cleanDir
  rw [isAbs_append _ hne,
    cleanComps_append_name (slash_not_mem_name x y z) (name_not_special x y z)
      (name_not_dotdot x y z),
    joinComps_append_last _ _ hdir]

/-- Splitting at the first non-digit: two equal lists each consisting of a
digit block, a non-digit delimiter and a tail have equal blocks, delimiters
and tails. -/
theorem digits_delim : ∀ {d1 d2 r1 r2 : List Char} {c1 c2 : Char},
    (∀ c ∈ d1, c.isDigit) → (∀ c ∈ d2, c.isDigit) →
    ¬ c1.isDigit → ¬ c2.isDigit →
    d1 ++ c1 :: r1 = d2 ++ c2 :: r2 →
    d1 = d2 ∧ c1 = c2 ∧ r1 = r2 := by
  intro d1
  induction d1 with
  | nil =>
    intro d2 r1 r2 c1 c2 _ hd2 hc1 _ h
    cases d2 with
    | nil =>
      rw [List.nil_append, List.nil_append, List.cons_eq_cons] at h
      exact ⟨rfl, h.1, h.2⟩
    | cons b t =>
      rw [List.nil_append, List.cons_append, List.cons_eq_cons] at h
      exact absurd (h.1 ▸ hd2 b (List.mem_cons_self b t)) hc1
  | cons a t ih =>
    intro d2 r1 r2 c1 c2 hd1 hd2 hc1 hc2 h
    cases d2 with
    | nil =>
      rw [List.nil_append, List.cons_append, List.cons_eq_cons] at h
      exact absurd (h.1.symm ▸ hd1 a (List.mem_cons_self a t)) hc2
    | cons b t2 =>
      rw [List.cons_append, List.cons_append, List.cons_eq_cons] at h
      obtain ⟨he, ht, hr⟩ := ih (fun c hc => hd1 c (List.mem_cons_of_mem a hc))
        (fun c hc => hd2 c (List.mem_cons_of_mem b hc)) hc1 hc2 h.2
      exact ⟨by rw [h.1, he], ht, hr⟩

/-- Distinct non-negative tile coordinates give distinct cache file
names. -/
theorem cachedName_inj {x1 y1 z1 x2 y2 z2 : ℤ}
    (hx1 : 0 ≤ x1) (hy1 : 0 ≤ y1) (hz1 : 0 ≤ z1)
    (hx2 : 0 ≤ x2) (hy2 : 0 ≤ y2) (hz2 : 0 ≤ z2)
    (h : (TileLoader.cachedNameForTile x1 y1 z1).data
      = (TileLoader.cachedNameForTile x2 y2 z2).data) :
    x1 = x2 ∧ y1 = y2 ∧ z1 = z2 := by
  rw [cachedName_data, cachedName_data, intRepr_nonneg hx1, intRepr_nonneg hy1,
    intRepr_nonneg hz1, intRepr_nonneg hx2, intRepr_nonneg hy2,
    intRepr_nonneg hz2] at h
  simp only [List.cons_append, List.append_assoc, List.cons_eq_cons] at h
  obtain ⟨hxe, -, h⟩ := digits_delim (natRepr_digits _) (natRepr_digits _)
    (by decide) (by decide) h.2
  rw [List.cons_eq_cons] at h
  obtain ⟨hye, -, h⟩ := digits_delim (natRepr_digits _) (natRepr_digits _)
    (by decide) (by decide) h.2
  rw [List.cons_eq_cons] at h
  obtain ⟨hze, -, -⟩ := digits_delim (natRepr_digits _) (natRepr_digits _)
    (by decide) (by decide) h.2
  have ex := natRepr_injective hxe
  have ey := natRepr_injective hye
  have ez := natRepr_injective hze
  omega

/-- C7: the per-tile cache path is a pure function of `(dir, x, y, z)` —
in this embedding it is given by a single defining equation, restated here
as: the path is exactly the cleaned cache directory, a separator, and the
file name `x⟨x⟩_y⟨y⟩_z⟨z⟩.jpg` — and for non-negative coordinates two
distinct `(x, y, z)` triples give distinct paths under the same
directory. -/
theorem c7_cache_path (dir : String) (x1 y1 z1 x2 y2 z2 : ℤ)
    (hx1 : 0 ≤ x1) (hy1 : 0 ≤ y1) (hz1 : 0 ≤ z1)
    (hx2 : 0 ≤ x2) (hy2 : 0 ≤ y2) (hz2 : 0 ≤ z2)
    (hdir : cleanComps dir.data ≠ []) :
    (TileLoader.cachedPathForTile dir x1 y1 z1).data
      = cleanDir dir ++ '/' :: (TileLoader.cachedNameForTile x1 y1 z1).data
    ∧ (TileLoader.cachedNameForTile x1 y1 z1).data
      = 'x' :: intRepr x1 ++ '_' :: 'y' :: intRepr y1 ++ '_' :: 'z' :: intRepr z1
          ++ ['.', 'j', 'p', 'g']
    ∧ ((x1, y1, z1) ≠ (x2, y2, z2) →
        TileLoader.cachedPathForTile dir x1 y1 z1
          ≠ TileLoader.cachedPathForTile dir x2 y2 z2) := by
  refine ⟨cachedPath_decomp dir x1 y1 z1 hdir, cachedName_data x1 y1 z1, ?_⟩
  intro hne heq
  apply hne
  have h := congrArg String.data heq
  rw [cachedPath_decomp dir x1 y1 z1 hdir, cachedPath_decomp dir x2 y2 z2 hdir]
    at h
  have h2 := List.append_cancel_left h
  rw [List.cons_eq_cons] at h2
  obtain ⟨ex, ey, ez⟩ := cachedName_inj hx1 hy1 hz1 hx2 hy2 hz2 h2.2
  rw [ex, ey, ez]

/-- C7 witness: the decomposition and injectivity at concrete inputs:
`dir = "/cache/123"`, tiles `(3, 5, 7)` and `(3, 5, 8)`. -/
theorem c7_witness :
    (TileLoader.cachedPathForTile "/cache/123" 3 5 7).data
      = cleanDir "/cache/123" ++ '/'
          :: (TileLoader.cachedNameForTile 3 5 7).data
    ∧ TileLoader.cachedPathForTile "/cache/123" 3 5 7
      ≠ TileLoader.cachedPathForTile "/cache/123" 3 5 8 := by
  have h := c7_cache_path "/cache/123" 3 5 7 3 5 8 (by decide) (by decide)
    (by decide) (by decide) (by decide) (by decide) (by decide)
  exact ⟨h.1, h.2.2 (by decide)⟩

/-! # Claim C4 -/

theorem runGrid_requests_count (cfg : TileCfg) (disk : String → Option Image)
    (hoff : cfg.offlineMode = false) :
    ∀ (l : List (ℤ × ℤ)) (nid : ℕ),
      (TileLoader.runGrid cfg disk nid l).requests.length
        = l.countP (fun xy =>
            (disk (TileLoader.cachedPathForTile cfg.cachePath xy.1 xy.2
              cfg.zoom)).isNone) := by
  intro l
  induction l with
  | nil => intro nid; rfl
  | cons xy rest ih =>
    intro nid
    cases hd : disk (TileLoader.cachedPathForTile cfg.cachePath xy.1 xy.2 cfg.zoom) with
    | some img =>
      simp [TileLoader.runGrid, hd, List.countP_cons, ih]
    | none =>
      simp [TileLoader.runGrid, hd, hoff, List.countP_cons, ih]

theorem countP_isNone_isSome (f : ℤ × ℤ → Option Image) :
    ∀ l : List (ℤ × ℤ),
      l.countP (fun xy => (f xy).isNone) + l.countP (fun xy => (f xy).isSome)
        = l.length := by
  intro l
  induction l with
  | nil => rfl
  | cons xy rest ih =>
    cases hd : f xy <;> simp [List.countP_cons, hd] <;> omega

/-- First part of the batch invariant: a record holds an image exactly when
it holds no pending handle. -/
theorem runGrid_inv (cfg : TileCfg) (disk : String → Option Image)
    (hcache : ∀ p img, disk p = some img → img.isSome = true) :
    ∀ (l : List (ℤ × ℤ)) (nid : ℕ),
      ∀ t ∈ (TileLoader.runGrid cfg disk nid l).tiles,
        t.image.isSome = true ↔ t.reply = none := by
  intro l
  induction l with
  | nil => intro nid t ht; exact absurd ht (List.not_mem_nil t)
  | cons xy rest ih =>
    intro nid t ht
    cases hd : disk (TileLoader.cachedPathForTile cfg.cachePath xy.1 xy.2 cfg.zoom) with
    | some img =>
      rw [show (TileLoader.runGrid cfg disk nid (xy :: rest)).tiles
          = MapTile.mkCache xy.1 xy.2 cfg.zoom img
            :: (TileLoader.runGrid cfg disk nid rest).tiles by
        simp [TileLoader.runGrid, hd]] at ht
      rcases List.mem_cons.mp ht with h | h
      · subst h
        simp [MapTile.mkCache, hcache _ _ hd]
      · exact ih nid t h
    | none =>
      by_cases hoff : cfg.offlineMode
      · rw [show (TileLoader.runGrid cfg disk nid (xy :: rest)).tiles
            = (TileLoader.runGrid cfg disk nid rest).tiles by
          simp [TileLoader.runGrid, hd, hoff]] at ht
        exact ih nid t ht
      · rw [show (TileLoader.runGrid cfg disk nid (xy :: rest)).tiles
            = MapTile.mkFetch xy.1 xy.2 cfg.zoom nid
              :: (TileLoader.runGrid cfg disk (nid + 1) rest).tiles by
          simp [TileLoader.runGrid, hd, hoff]] at ht
        rcases List.mem_cons.mp ht with h | h
        · subst h
          simp [MapTile.mkFetch]
        · exact ih (nid + 1) t h

theorem check_iff_pending_nil {tiles : List MapTile}
    (hinv : ∀ t ∈ tiles, t.image.isSome = true ↔ t.reply = none) :
    TileLoader.checkIfLoadingComplete tiles = true
      ↔ tiles.filterMap MapTile.reply = [] := by
  unfold TileLoader.checkIfLoadingComplete
  rw [List.all_eq_true, List.filterMap_eq_nil_iff]
  constructor
  · intro H t ht
    exact (hinv t ht).mp (H t ht)
  · intro H t ht
    exact (hinv t ht).mpr (H t ht)

theorem setTileImage_filterMap (i : ℕ) (img : Image) :
    ∀ tiles : List MapTile,
      (TileLoader.setTileImage i img tiles).filterMap MapTile.reply
        = (tiles.filterMap MapTile.reply).erase i := by
  intro tiles
  induction tiles with
  | nil => rfl
  | cons t ts ih =>
    by_cases h : t.reply = some i
    · rw [show TileLoader.setTileImage i img (t :: ts)
          = t.setImage img :: ts by simp [TileLoader.setTileImage, h]]
      rw [show (t :: ts).filterMap MapTile.reply
          = i :: ts.filterMap MapTile.reply by
        simp [List.filterMap_cons, h]]
      rw [List.erase_cons_head]
      simp [MapTile.setImage, List.filterMap_cons]
    · rw [show TileLoader.setTileImage i img (t :: ts)
          = t :: TileLoader.setTileImage i img ts by
        simp [TileLoader.setTileImage, h]]
      cases hr : t.reply with
      | none => simp [List.filterMap_cons, hr, ih]
      | some j =>
        have hj : j ≠ i := by
          intro hc
          exact h (by rw [hr, hc])
        simp only [List.filterMap_cons, hr, ih]
        rw [List.erase_cons_tail]
        simp [hj]

theorem setTileImage_inv (i : ℕ) (img : Image) (himg : img.isSome = true) :
    ∀ tiles : List MapTile,
      (∀ t ∈ tiles, t.image.isSome = true ↔ t.reply = none) →
      ∀ t ∈ TileLoader.setTileImage i img tiles,
        t.image.isSome = true ↔ t.reply = none := by
  intro tiles
  induction tiles with
  | nil => intro _ t ht; exact absurd ht (List.not_mem_nil t)
  | cons t0 ts ih =>
    intro hinv t ht
    by_cases h : t0.reply = some i
    · rw [show TileLoader.setTileImage i img (t0 :: ts)
          = t0.setImage img :: ts by simp [TileLoader.setTileImage, h]] at ht
      rcases List.mem_cons.mp ht with he | he
      · subst he
        simp [MapTile.setImage, himg]
      · exact hinv t (List.mem_cons_of_mem t0 he)
    · rw [show TileLoader.setTileImage i img (t0 :: ts)
          = t0 :: TileLoader.setTileImage i img ts by
        simp [TileLoader.setTileImage, h]] at ht
      rcases List.mem_cons.mp ht with he | he
      · exact he ▸ hinv t0 (List.mem_cons_self t0 ts)
      · exact ih (fun u hu => hinv u (List.mem_cons_of_mem t0 hu)) t he

theorem find_reply_eq_some {tiles : List MapTile} {i : ℕ}
    (h : i ∈ tiles.filterMap MapTile.reply) :
    ∃ t, tiles.find? (fun t => decide (t.reply = some i)) = some t := by
  rw [List.mem_filterMap] at h
  obtain ⟨t, ht, hr⟩ := h
  have : (tiles.find? (fun t => decide (t.reply = some i))).isSome = true := by
    rw [List.find?_isSome]
    exact ⟨t, ht, by simp [hr]⟩
  exact Option.isSome_iff_exists.mp this

/-- Effect of a successful, non-redirected completion for a pending handle:
the matched record gets the decoded image, `receivedImage` is emitted, and
`finishedLoading` follows exactly when the updated batch is complete. -/
theorem finishedRequest_success (cfg : TileCfg) (st : LoaderState) (r : Reply)
    (v : ℕ) (hred : r.redirect = "") (herr : r.error = false)
    (hdec : r.decoded = some (some v))
    (hmem : r.id ∈ st.tiles.filterMap MapTile.reply) :
    (TileLoader.finishedRequest cfg st r).1.tiles
      = TileLoader.setTileImage r.id (some v) st.tiles
    ∧ (TileLoader.finishedRequest cfg st r).2.2
      = Event.receivedImage r.url
          :: (if TileLoader.checkIfLoadingComplete
                (TileLoader.setTileImage r.id (some v) st.tiles) = true
              then [Event.finishedLoading] else []) := by
  have hredeq : TileLoader.redirectUrl r.redirect st.urlRedirectedTo = "" := by
    rw [hred]
    unfold TileLoader.redirectUrl
    rw [if_neg]
    intro hc
    exact hc.1 rfl
  obtain ⟨t0, hf⟩ := find_reply_eq_some hmem
  have hf2 : ({ st with
      urlRedirectedTo :=
        TileLoader.redirectUrl r.redirect st.urlRedirectedTo } :
        LoaderState).tiles.find? (fun t => decide (t.reply = some r.id))
      = some t0 := hf
  simp only [TileLoader.finishedRequest, hredeq]
  rw [if_neg (by simp)]
  rw [hf2]
  simp [herr, hdec]

/-- Trace behaviour of delivering all pending replies, in any order, each
successful: no `finishedLoading` before the last delivery, exactly one at
the last (and none at all for an empty pending set). -/
theorem runReplies_spec (cfg : TileCfg) :
    ∀ (rs : List Reply) (st : LoaderState),
      (∀ t ∈ st.tiles, t.image.isSome = true ↔ t.reply = none) →
      List.Perm (rs.map Reply.id) (st.tiles.filterMap MapTile.reply) →
      (∀ r ∈ rs, r.redirect = "" ∧ r.error = false
        ∧ ∃ v, r.decoded = some (some v)) →
      (TileLoader.countFin (TileLoader.runReplies cfg st rs).2
          = if rs = [] then 0 else 1)
      ∧ (∀ k, k < rs.length →
          TileLoader.countFin (TileLoader.runReplies cfg st (rs.take k)).2
            = 0) := by
  intro rs
  induction rs with
  | nil =>
    intro st _ _ _
    refine ⟨by simp [TileLoader.runReplies, TileLoader.countFin], ?_⟩
    intro k hk
    exact absurd hk (Nat.not_lt_zero k)
  | cons r rs ih =>
    intro st hinv hperm hok
    obtain ⟨hred, herr, v, hdec⟩ := hok r (List.mem_cons_self r rs)
    have hmem : r.id ∈ st.tiles.filterMap MapTile.reply :=
      hperm.subset (by simp)
    obtain ⟨ht, he⟩ := finishedRequest_success cfg st r v hred herr hdec hmem
    have hinvT : ∀ t ∈ TileLoader.setTileImage r.id (some v) st.tiles,
        t.image.isSome = true ↔ t.reply = none :=
      setTileImage_inv r.id (some v) rfl st.tiles hinv
    have hinv1 : ∀ t ∈ (TileLoader.finishedRequest cfg st r).1.tiles,
        t.image.isSome = true ↔ t.reply = none := by
      rw [ht]
      exact hinvT
    have hperm1 : List.Perm (rs.map Reply.id)
        ((TileLoader.finishedRequest cfg st r).1.tiles.filterMap
          MapTile.reply) := by
      rw [ht, setTileImage_filterMap]
      have h2 := hperm.erase r.id
      simp only [List.map_cons, List.erase_cons_head] at h2
      exact h2
    have hok1 : ∀ x ∈ rs, x.redirect = "" ∧ x.error = false
        ∧ ∃ v, x.decoded = some (some v) :=
      fun x hx => hok x (List.mem_cons_of_mem r hx)
    have hrun : (TileLoader.runReplies cfg st (r :: rs)).2
        = (TileLoader.finishedRequest cfg st r).2.2
          ++ (TileLoader.runReplies cfg (TileLoader.finishedRequest cfg st
              r).1 rs).2 := rfl
    by_cases hp : (TileLoader.setTileImage r.id (some v)
        st.tiles).filterMap MapTile.reply = []
    · have hcheck : TileLoader.checkIfLoadingComplete
          (TileLoader.setTileImage r.id (some v) st.tiles) = true :=
        (check_iff_pending_nil hinvT).mpr hp
      have hrs : rs = [] := by
        have h3 := hperm1
        rw [ht, setTileImage_filterMap] at h3
        rw [← setTileImage_filterMap r.id (some v) st.tiles, hp] at h3
        exact List.map_eq_nil_iff.mp h3.eq_nil
      subst hrs
      constructor
      · rw [hrun, he, if_pos hcheck]
        simp [TileLoader.runReplies, TileLoader.countFin, List.countP_cons]
      · intro k hk
        have hk0 : k = 0 := by simpa using Nat.lt_one_iff.mp (by simpa using hk)
        subst hk0
        simp [TileLoader.runReplies, TileLoader.countFin]
    · have hcf : ¬ TileLoader.checkIfLoadingComplete
          (TileLoader.setTileImage r.id (some v) st.tiles) = true :=
        fun hc => hp ((check_iff_pending_nil hinvT).mp hc)
      have hrs : rs ≠ [] := by
        intro h0
        subst h0
        apply hp
        have h3 := hperm1.symm.eq_nil
        rw [ht, setTileImage_filterMap] at h3
        rw [← setTileImage_filterMap r.id (some v) st.tiles] at h3
        exact h3
      obtain ⟨ihc, ihp⟩ := ih (TileLoader.finishedRequest cfg st r).1 hinv1
        hperm1 hok1
      constructor
      · rw [hrun, he, if_neg hcf]
        simp only [List.cons_append, List.nil_append]
        rw [if_neg hrs] at ihc
        rw [show ∀ x : List Event, TileLoader.countFin
            (Event.receivedImage r.url :: x) = TileLoader.countFin x from
          fun x => by simp [TileLoader.countFin, List.countP_cons], ihc]
        rw [if_neg (by simp)]
      · intro k hk
        cases k with
        | zero => simp [TileLoader.runReplies, TileLoader.countFin]
        | succ k2 =>
          have hk2 : k2 < rs.length := by simpa using hk
          rw [List.take_succ_cons]
          have hrun2 : (TileLoader.runReplies cfg st (r :: rs.take k2)).2
              = (TileLoader.finishedRequest cfg st r).2.2
                ++ (TileLoader.runReplies cfg
                    (TileLoader.finishedRequest cfg st r).1 (rs.take k2)).2 :=
            rfl
          rw [hrun2, he, if_neg hcf]
          simp only [List.cons_append, List.nil_append]
          rw [show ∀ x : List Event, TileLoader.countFin
              (Event.receivedImage r.url :: x) = TileLoader.countFin x from
            fun x => by simp [TileLoader.countFin, List.countP_cons]]
          exact ihp k2 hk2

theorem runGrid_events_no_fin (cfg : TileCfg) (disk : String → Option Image) :
    ∀ (l : List (ℤ × ℤ)) (nid : ℕ),
      TileLoader.countFin (TileLoader.runGrid cfg disk nid l).events = 0 := by
  intro l
  induction l with
  | nil => intro nid; rfl
  | cons xy rest ih =>
    intro nid
    cases hd : disk (TileLoader.cachedPathForTile cfg.cachePath xy.1 xy.2 cfg.zoom) with
    | some img => simpa [TileLoader.runGrid, hd] using ih nid
    | none =>
      by_cases hoff : cfg.offlineMode
      · simpa [TileLoader.runGrid, hd, hoff] using ih nid
      · simpa [TileLoader.runGrid, hd, hoff, TileLoader.countFin,
          List.countP_cons] using ih (nid + 1)

theorem countFin_append (a b : List Event) :
    TileLoader.countFin (a ++ b)
      = TileLoader.countFin a + TileLoader.countFin b :=
  List.countP_append _ _ _

/-- C4: with offline mode disabled and every cached file decodable, a batch
over `N` rectangle cells of which `M` have cache files issues exactly
`N - M` fetches; if all pending fetches then complete with successfully
decoded images — in any order — exactly one `finishedLoading` is emitted
over the whole trace, and it appears only once the last completion has been
processed (every proper prefix of the completion sequence has emitted
none); a batch whose every cell was already cached emits `finishedLoading`
synchronously inside `start()`. -/
theorem c4_fetch_and_complete (cfg : TileCfg) (disk : String → Option Image)
    (st : LoaderState)
    (hoff : cfg.offlineMode = false)
    (hcache : ∀ p img, disk p = some img → img.isSome = true)
    (rs : List Reply)
    (hperm : List.Perm (rs.map Reply.id)
      ((TileLoader.start cfg disk st).1.tiles.filterMap MapTile.reply))
    (hok : ∀ r ∈ rs, r.redirect = "" ∧ r.error = false
      ∧ ∃ v, r.decoded = some (some v)) :
    ((TileLoader.start cfg disk st).2.1.length
        = (TileLoader.grid cfg).length
          - (TileLoader.grid cfg).countP (fun xy =>
              (disk (TileLoader.cachedPathForTile cfg.cachePath xy.1 xy.2
                cfg.zoom)).isSome))
    ∧ TileLoader.countFin ((TileLoader.start cfg disk st).2.2
        ++ (TileLoader.runReplies cfg (TileLoader.start cfg disk st).1 rs).2)
      = 1
    ∧ (∀ k, k < rs.length →
        TileLoader.countFin ((TileLoader.start cfg disk st).2.2
          ++ (TileLoader.runReplies cfg (TileLoader.start cfg disk st).1
              (rs.take k)).2) = 0)
    ∧ ((∀ xy ∈ TileLoader.grid cfg,
          (disk (TileLoader.cachedPathForTile cfg.cachePath xy.1 xy.2
            cfg.zoom)).isSome = true) →
        Event.finishedLoading ∈ (TileLoader.start cfg disk st).2.2) := by
  have hinv0 : ∀ t ∈ (TileLoader.start cfg disk st).1.tiles,
      t.image.isSome = true ↔ t.reply = none :=
    runGrid_inv cfg disk hcache (TileLoader.grid cfg) st.nextId
  have hse : (TileLoader.start cfg disk st).2.2
      = (TileLoader.runGrid cfg disk st.nextId (TileLoader.grid cfg)).events
        ++ if TileLoader.checkIfLoadingComplete
            (TileLoader.start cfg disk st).1.tiles = true
          then [Event.finishedLoading] else [] := rfl
  have hev0 := runGrid_events_no_fin cfg disk (TileLoader.grid cfg) st.nextId
  obtain ⟨hrc, hrp⟩ := runReplies_spec cfg rs (TileLoader.start cfg disk st).1
    hinv0 hperm hok
  have hcnt : ∀ b : List Event, TileLoader.countFin
      ((TileLoader.start cfg disk st).2.2 ++ b)
      = (if TileLoader.checkIfLoadingComplete
          (TileLoader.start cfg disk st).1.tiles = true then 1 else 0)
        + TileLoader.countFin b := by
    intro b
    rw [countFin_append, hse, countFin_append, hev0]
    by_cases hc : TileLoader.checkIfLoadingComplete
        (TileLoader.start cfg disk st).1.tiles = true
    · rw [if_pos hc, if_pos hc]
      rfl
    · rw [if_neg hc, if_neg hc]
      rfl
  refine ⟨?_, ?_, ?_, ?_⟩
  · show (TileLoader.runGrid cfg disk st.nextId
        (TileLoader.grid cfg)).requests.length = _
    rw [runGrid_requests_count cfg disk hoff]
    have h2 := countP_isNone_isSome (fun xy =>
      disk (TileLoader.cachedPathForTile cfg.cachePath xy.1 xy.2 cfg.zoom))
      (TileLoader.grid cfg)
    omega
  · rw [hcnt]
    by_cases hp0 : (TileLoader.start cfg disk st).1.tiles.filterMap
        MapTile.reply = []
    · have hrs : rs = [] := by
        rw [hp0] at hperm
        exact List.map_eq_nil_iff.mp hperm.eq_nil
      rw [if_pos ((check_iff_pending_nil hinv0).mpr hp0), hrs]
      rw [hrs] at hrc
      simp only [if_true, eq_self_iff_true] at hrc
      rw [hrc]
    · have hrs : rs ≠ [] := by
        intro h0
        apply hp0
        rw [h0] at hperm
        exact (hperm.symm.eq_nil)
      rw [if_neg (fun hc => hp0 ((check_iff_pending_nil hinv0).mp hc))]
      rw [if_neg hrs] at hrc
      rw [hrc]
  · intro k hk
    have hrs : rs ≠ [] := by
      intro h0
      rw [h0] at hk
      exact absurd hk (by simp)
    have hp0 : (TileLoader.start cfg disk st).1.tiles.filterMap
        MapTile.reply ≠ [] := by
      intro h0
      apply hrs
      rw [h0] at hperm
      exact List.map_eq_nil_iff.mp hperm.eq_nil
    rw [hcnt]
    rw [if_neg (fun hc => hp0 ((check_iff_pending_nil hinv0).mp hc))]
    rw [hrp k hk]
  · intro hall
    have hreq0 : (TileLoader.runGrid cfg disk st.nextId
        (TileLoader.grid cfg)).requests.length = 0 := by
      rw [runGrid_requests_count cfg disk hoff]
      rw [List.countP_eq_zero]
      intro xy hxy
      rw [Bool.not_eq_true, Option.isNone_eq_false_iff]
      rw [Option.isSome_iff_exists] at *
      exact Option.isSome_iff_exists.mp (hall xy hxy)
    have hp0 : (TileLoader.start cfg disk st).1.tiles.filterMap
        MapTile.reply = [] := by
      show (TileLoader.runGrid cfg disk st.nextId
          (TileLoader.grid cfg)).tiles.filterMap MapTile.reply = []
      rw [runGrid_replies, hreq0]
      rfl
    rw [hse, if_pos ((check_iff_pending_nil hinv0).mpr hp0)]
    exact List.mem_append_right _ (List.mem_singleton_self _)

/-- C4 witness: one-cell rectangle, empty cache, online: exactly one fetch
is issued; before its completion no `finishedLoading` has been emitted, and
after its successful completion the whole trace holds exactly one. -/
theorem c4_witness :
    (TileLoader.start ⟨"u", 0, 0, 0, 0, false, "/c"⟩ (fun _ => none)
      ⟨[], "", 0⟩).2.1.length = 1
    ∧ TileLoader.countFin
        ((TileLoader.start ⟨"u", 0, 0, 0, 0, false, "/c"⟩ (fun _ => none)
          ⟨[], "", 0⟩).2.2
        ++ (TileLoader.runReplies ⟨"u", 0, 0, 0, 0, false, "/c"⟩
            (TileLoader.start ⟨"u", 0, 0, 0, 0, false, "/c"⟩ (fun _ => none)
              ⟨[], "", 0⟩).1
            [⟨0, "w", "", false, some (some 1)⟩]).2) = 1
    ∧ TileLoader.countFin
        (TileLoader.start ⟨"u", 0, 0, 0, 0, false, "/c"⟩ (fun _ => none)
          ⟨[], "", 0⟩).2.2 = 0 := by
  have h := c4_fetch_and_complete ⟨"u", 0, 0, 0, 0, false, "/c"⟩
    (fun _ => none) ⟨[], "", 0⟩ rfl
    (by intro p img himg; simp at himg)
    [⟨0, "w", "", false, some (some 1)⟩]
    (by decide)
    (by intro r hr; rw [List.mem_singleton] at hr; subst hr
        exact ⟨rfl, rfl, 1, rfl⟩)
  refine ⟨?_, h.2.1, ?_⟩
  · rw [h.1]
    decide
  · have h3 := h.2.2.1 0 (by simp)
    simpa using h3

end RvizSatellite
